import Mathlib

/-!
# Verification of the iterup lazy sequence library

Shallow embedding of `src/lib` (the canonical async revision: `methods.ts`,
`core.ts`, `utils.ts`, with the empty `OverrideFunctions` set from
`overrides.ts`).

A canonical sequence (the Canonical Sequence of spec §3) is a one-shot
pull-based stream: we model the values it will yield as a `List`, and each
operator as the function the generator in `methods.ts` computes over that
stream.  Counts of pulls / callback invocations are modelled by instrumented
variants that mirror the generator loops step by step.  JavaScript `number`
counts are modelled as `Int` (the claims quantify over integers; overflow is
irrelevant at these magnitudes).
-/

namespace Iterup

/-! ## take (methods.ts lines 221-233)

```
if (count <= 0) { return Iterator.from([]); }
for await (const value of iterator) {
  yield value;
  if (count-- <= 1) break;
}
```
Each loop iteration pulls one element from upstream, yields it, then tests
`count <= 1` (post-decrementing).  The `break` after the `count`-th yield
happens before any further pull. -/

def takeLoop {α : Type} : List α → Int → List α
  | [], _ => []
  | v :: rest, c => if c ≤ 1 then [v] else v :: takeLoop rest (c - 1)

def take {α : Type} (s : List α) (count : Int) : List α :=
  if count ≤ 0 then [] else takeLoop s count

/-! ## drop (methods.ts lines 188-202)

```
if (count <= 0) { yield* iterator; }
for await (const value of iterator) {
  if (count-- > 0) continue;
  yield value;
}
```
Note the missing `return` after the `yield*`: for `count <= 0` the generator
first re-yields the whole source and then runs the second loop on the same
(now exhausted, one-shot) iterator, which contributes nothing.  The second
loop decrements `count` on every iteration and yields once it is `<= 0`. -/

def dropLoop {α : Type} : List α → Int → List α
  | [], _ => []
  | v :: rest, c => if 0 < c then dropLoop rest (c - 1) else v :: dropLoop rest (c - 1)

def drop {α : Type} (s : List α) (count : Int) : List α :=
  if count ≤ 0 then s ++ dropLoop [] count else dropLoop s count

/-! ## zip (methods.ts lines 615-642)

```
for (;;) {
  const [oneResult, anotherResult] = await Promise.all([iterator.next(), anotherIterator.next()]);
  const oneValue = unwrapResult(oneResult);
  if (oneValue === None) break;
  const anotherValue = unwrapResult(anotherResult);
  if (anotherValue === None) break;
  yield [oneValue, anotherValue];
}
```
One pull from each side per step; the loop breaks as soon as either side
reports done, discarding the element already drawn from the other side.
(Per the data-model invariant of §3, no element value equals the `None`
sentinel, so `unwrapResult` reports done exactly at end-of-sequence.) -/

def zip {α β : Type} : List α → List β → List (α × β)
  | [], _ => []
  | _ :: _, [] => []
  | a :: as, b :: bs => (a, b) :: zip as bs

/-! ## cycle (methods.ts lines 549-569)

```
if (cycles <= 0) { return; }
const cachedValues = [];
let initialCycle = true;
for (let cycle = 0; cycle < cycles; cycle++) {
  initialCycle = cycle === 0;
  for await (const value of initialCycle ? iterator : cachedValues) {
    yield value;
    if (initialCycle) { cachedValues.push(value); }
  }
}
```
The first repetition pulls each source element once, yielding it and pushing
it into the cache, so after repetition 0 the cache equals the source stream;
every later repetition replays the cache.  `cycleJS s k` returns the yielded
stream together with the number of elements pulled from the original source. -/

def cycleReps {α : Type} : Nat → List α → List α
  | 0, _ => []
  | Nat.succ m, cache => cache ++ cycleReps m cache

def cycleJS {α : Type} (s : List α) (cycles : Int) : List α × Nat :=
  if cycles ≤ 0 then ([], 0) else (s ++ cycleReps (cycles.toNat - 1) s, s.length)

/-! ## map fused with take, instrumented (methods.ts lines 124-136 and 221-233)

`map` is a generator: each time `take` pulls from it, it pulls one element
from the source, invokes `f` once on it (awaiting if needed), and yields the
result; when the source is done it is done without invoking `f`.
`takeMapRun s f n` drives `source -> map(f) -> take(n)` to completion and
returns (elements yielded by `take`, number of `f` invocations).  Each `f`
invocation corresponds to one element pulled by `take` from its upstream. -/

def takeMapLoop {α β : Type} (f : α → β) : List α → Int → List β × Nat
  | [], _ => ([], 0)
  | v :: rest, c =>
    let w := f v
    if c ≤ 1 then ([w], 1)
    else
      let r := takeMapLoop f rest (c - 1)
      (w :: r.1, r.2 + 1)

def takeMapRun {α β : Type} (s : List α) (f : α → β) (count : Int) : List β × Nat :=
  if count ≤ 0 then ([], 0) else takeMapLoop f s count

/-! ## fold / sum / min / max (methods.ts lines 687-698, 387-396, 436-446, 486-496)

Elements of a sequence fed to the numeric terminals are JavaScript values
that are either numbers or something else; we model them as `JSVal`.  A
callback `throw` aborts the whole terminal call (fold does not catch), which
we model with `Except`: the fold stops at the first `.error` and the partial
accumulator is discarded.

```
export async function fold(iterator, initialValue, f) {
  let accumulator = initialValue;
  for await (const value of iterator) { accumulator = await f(accumulator, value); }
  return accumulator;
}
```
-/

inductive JSVal : Type
  | num (n : Int)
  | str (s : String)
deriving DecidableEq

def JSVal.isNum : JSVal → Bool
  | .num _ => true
  | _ => false

def foldE (step : Int → JSVal → Except String Int) : List JSVal → Int → Except String Int
  | [], acc => .ok acc
  | v :: rest, acc =>
    match step acc v with
    | .ok acc2 => foldE step rest acc2
    | .error e => .error e

/-- `Number.MAX_SAFE_INTEGER`. -/
def maxSafeInteger : Int := 9007199254740991

/-- `Number.MIN_SAFE_INTEGER`. -/
def minSafeInteger : Int := -9007199254740991

def sumStep (acc : Int) (v : JSVal) : Except String Int :=
  match v with
  | .num n => .ok (acc + n)
  | _ => .error "sum is not supported for non numeric iterators"

def sum (s : List JSVal) : Except String Int :=
  foldE sumStep s 0

def minStep (acc : Int) (v : JSVal) : Except String Int :=
  match v with
  | .num n => .ok (if n < acc then n else acc)
  | _ => .error "min is not supported for non numeric iterators"

def min (s : List JSVal) : Except String Int :=
  foldE minStep s maxSafeInteger

def maxStep (acc : Int) (v : JSVal) : Except String Int :=
  match v with
  | .num n => .ok (if acc < n then n else acc)
  | _ => .error "max is not supported for non numeric iterators"

def max (s : List JSVal) : Except String Int :=
  foldE maxStep s minSafeInteger

/-! ## filter (methods.ts lines 253-262)

```
export async function filter(iterator, f) {
  for await (const value of iterator) {
    if (f(value)) { return value; }
  }
}
```
The declared type of the predicate is `boolean | Promise<boolean>`.  The code
tests `f(value)` for truthiness WITHOUT awaiting it: a `Promise` object is
always truthy regardless of the boolean it later resolves to.  `JSBool`
models the two shapes a predicate call can return; `truthy` is JavaScript
truthiness of that returned value, `resolved` is the boolean after awaiting. -/

inductive JSBool : Type
  | now (b : Bool)
  | promise (b : Bool)
deriving DecidableEq

def JSBool.truthy : JSBool → Bool
  | .now b => b
  | .promise _ => true

def JSBool.resolved : JSBool → Bool
  | .now b => b
  | .promise b => b

/-- The find-style terminal `filter` exactly as the source computes it:
first element whose predicate RESULT VALUE is truthy (a pending promise is
truthy). -/
def filterJS {α : Type} (f : α → JSBool) : List α → Option α
  | [] => none
  | v :: rest => if (f v).truthy then some v else filterJS f rest

/-- The reading of `filter` in the claim ("returns the first element of s for
which f returns true", awaiting suspension-based predicates): first element
whose predicate resolves to `true`. -/
def filterSpec {α : Type} (f : α → JSBool) : List α → Option α
  | [] => none
  | v :: rest => if (f v).resolved then some v else filterSpec f rest

/-! ## forEach (methods.ts lines 797-805)

```
export async function forEach(iterator, f) {
  await fold(iterator, undefined, (_, value) => {
    f(value);
    return undefined;
  });
}
```
`fold` awaits the wrapper, but the wrapper calls `f(value)` and discards the
promise `f` returns.  We model the observable temporal behaviour as a trace
of events: calling callback `i` runs its synchronous prefix (`Ev.start i`)
immediately; a callback without a suspension point also completes
synchronously (`Ev.fin i`); a callback whose body suspends (e.g. awaits a
timer) completes only when its continuation is scheduled, which — since the
driving loop never awaits the discarded promise — happens after the loop has
finished and the promise of `forEach` itself has resolved.  `forEachRun` is the
event trace up to the moment the `forEach` call resolves. -/

inductive Ev : Type
  | start (i : Nat)
  | fin (i : Nat)
deriving DecidableEq

/-- Trace of callback events observed before the `forEach` promise resolves,
as the code executes it: every callback is started in order, synchronous
callbacks also finish in place, but the completion of a suspending callback is
never awaited and so does not appear before resolution. -/
def forEachRun (n : Nat) (susp : Nat → Bool) : List Ev :=
  (List.range n).flatMap fun i => Ev.start i :: (if susp i then [] else [Ev.fin i])

/-- Trace demanded by the claim: each callback is awaited to completion
before the next element is processed, and the call resolves only after every
callback has completed. -/
def forEachSpec (n : Nat) (_susp : Nat → Bool) : List Ev :=
  (List.range n).flatMap fun i => [Ev.start i, Ev.fin i]

/-! ## The interception / wrapping layer (core.ts lines 106-137, 205-218; utils.ts)

```
export function fromAsyncIterator(iterator) {
  const proxy = new Proxy(iterator, {
    get(target, prop, receiver) { ... }
  });
  Object.defineProperty(proxy, IterupID, {});
  return proxy;
}
```

Model: an `Entity` is either a plain async-generator object (`base`,
carrying the stream of elements it will yield and its own-property table) or
a `Proxy` around another entity (`proxy`).  The handler passed to
`new Proxy` defines ONLY a `get` trap, so every other internal operation
uses the Proxy defaults, which forward to the target:

* `Object.defineProperty(proxy, k, d)` — no `defineProperty` trap, so the
  property is defined on the TARGET object (`defineProp`).  Descriptor `{}`
  defaults `enumerable` to `false`.
* `k in proxy` — no `has` trap, so forwarded to the target (`hasProp`);
  this is what `isIterup` (`IterupID in value`) performs.
* iteration (`for await`) calls `proxy[Symbol.asyncIterator]()` and then
  `next()`.  `Symbol.asyncIterator` is not a key of the `Extensions` record
  (its keys are the operator names), so the `get` trap forwards it to the
  target and applies it with `this` rebound to the target; with the
  `OverrideFunctions` set empty (overrides.ts of this revision) the raw
  result — the underlying generator itself — is returned un-rewrapped.
  Hence iterating a proxy yields exactly the elements of its target
  (`collectE`).

Property keys: we only need the `IterupID` symbol and an "other" bucket. -/

inductive PKey : Type
  | iterupID
  | other (n : Nat)
deriving DecidableEq

/-- A plain async-generator object: the elements it will yield, and its own
properties as (key, enumerable) pairs. -/
structure SeqObj (α : Type) : Type where
  elems : List α
  props : List (PKey × Bool)
deriving DecidableEq

inductive Entity (α : Type) : Type
  | base (o : SeqObj α)
  | proxy (target : Entity α)
deriving DecidableEq

/-- `Object.defineProperty(e, k, {})`: a proxy without a `defineProperty`
trap forwards to its target; on a plain object the property is recorded with
`enumerable: false` (the descriptor-`{}` default). -/
def defineProp {α : Type} : Entity α → PKey → Bool → Entity α
  | .base o, k, e => .base { o with props := (k, e) :: o.props }
  | .proxy t, k, e => .proxy (defineProp t k e)

/-- `k in e`: a proxy without a `has` trap forwards to its target. -/
def hasProp {α : Type} : Entity α → PKey → Bool
  | .base o, k => o.props.any fun p => p.1 = k
  | .proxy t, k => hasProp t k

/-- Enumerability of property `k` as recorded on the object that actually
holds it (first matching descriptor). -/
def propEnumerable {α : Type} : Entity α → PKey → Option Bool
  | .base o, k => (o.props.find? fun p => p.1 = k).map Prod.snd
  | .proxy t, k => propEnumerable t k

/-- `isIterup` (utils.ts lines 121-125): `IterupID in value`. -/
def isIterup {α : Type} (e : Entity α) : Bool :=
  hasProp e PKey.iterupID

/-- `fromAsyncIterator` (core.ts lines 106-137): build the proxy, then
`Object.defineProperty(proxy, IterupID, {})` — which, forwarded by the
trap-less define, mutates the wrapped target — and return the proxy. -/
def fromAsyncIterator {α : Type} (it : Entity α) : Entity α :=
  .proxy (defineProp it PKey.iterupID false)

/-- The sequence object the returned handle wraps (the post-`defineProperty`
state of the `iterator` argument). -/
def underlyingOf {α : Type} (it : Entity α) : Entity α :=
  defineProp it PKey.iterupID false

/-- `iterup` (core.ts lines 205-218) on an entity of our model: every
`Entity` is an async iterator (`Symbol.asyncIterator in e` forwards to a
generator at the bottom), so `isAsyncIterator` answers true and the entry
point dispatches straight to `fromAsyncIterator` — it never consults
`isIterup`. -/
def iterup {α : Type} (e : Entity α) : Entity α :=
  fromAsyncIterator e

/-- `collect` (methods.ts lines 284-295) driven on an entity: `for await`
over a proxy iterates its target (see the module comment), so collecting a
handle yields exactly the elements of the base generator. -/
def collectE {α : Type} : Entity α → List α
  | .base o => o.elems
  | .proxy t => collectE t

/-- Number of interception layers around the base generator. -/
def wrapDepth {α : Type} : Entity α → Nat
  | .base _ => 0
  | .proxy t => wrapDepth t + 1

/-! ## Helper lemmas -/

lemma dropLoop_nonpos {α : Type} :
    ∀ (s : List α) (c : Int), c ≤ 0 → dropLoop s c = s := by
  intro s
  induction s with
  | nil => intro c _; rfl
  | cons v rest ih =>
    intro c hc
    simp only [dropLoop, if_neg (by omega : ¬ 0 < c)]
    rw [ih (c - 1) (by omega)]

lemma dropLoop_pos {α : Type} :
    ∀ (s : List α) (c : Int), 0 < c → dropLoop s c = List.drop c.toNat s := by
  intro s
  induction s with
  | nil => intro c _; simp [dropLoop]
  | cons v rest ih =>
    intro c hc
    simp only [dropLoop, if_pos hc]
    rcases lt_or_le 0 (c - 1) with h1 | h1
    · rw [ih (c - 1) h1]
      have h2 : c.toNat = (c - 1).toNat + 1 := by omega
      rw [h2, List.drop_succ_cons]
    · rw [dropLoop_nonpos rest (c - 1) h1]
      have h2 : c.toNat = 1 := by omega
      rw [h2, List.drop_succ_cons, List.drop_zero]

lemma drop_eq_drop_toNat {α : Type} (s : List α) (count : Int) :
    drop s count = List.drop count.toNat s := by
  unfold drop
  by_cases hc : count ≤ 0
  · rw [if_pos hc]
    have h0 : count.toNat = 0 := by omega
    simp [h0, dropLoop]
  · rw [if_neg hc]
    exact dropLoop_pos s count (by omega)

lemma takeLoop_append_dropLoop {α : Type} :
    ∀ (s : List α) (c : Int), 0 < c → takeLoop s c ++ dropLoop s c = s := by
  intro s
  induction s with
  | nil => intro c _; rfl
  | cons v rest ih =>
    intro c hc
    by_cases h1 : c ≤ 1
    · simp only [takeLoop, if_pos h1, dropLoop, if_pos hc]
      rw [dropLoop_nonpos rest (c - 1) (by omega)]
      rfl
    · simp only [takeLoop, if_neg h1, dropLoop, if_pos hc, List.cons_append]
      rw [ih (c - 1) (by omega)]

lemma cycleReps_eq_flatten_replicate {α : Type} :
    ∀ (m : Nat) (cache : List α), cycleReps m cache = (List.replicate m cache).flatten := by
  intro m
  induction m with
  | zero => intro cache; rfl
  | succ k ih =>
    intro cache
    simp only [cycleReps, List.replicate_succ, List.flatten_cons, ih]

lemma takeMapLoop_bounds {α β : Type} (f : α → β) :
    ∀ (s : List α) (c : Int), 0 < c →
      (takeMapLoop f s c).1.length ≤ c.toNat ∧ (takeMapLoop f s c).2 ≤ c.toNat := by
  intro s
  induction s with
  | nil => intro c _; exact ⟨by simp [takeMapLoop], by simp [takeMapLoop]⟩
  | cons v rest ih =>
    intro c hc
    by_cases h1 : c ≤ 1
    · simp only [takeMapLoop, if_pos h1]
      exact ⟨by simpa using (by omega : 1 ≤ c.toNat), by simpa using (by omega : 1 ≤ c.toNat)⟩
    · have hr := ih (c - 1) (by omega)
      simp only [takeMapLoop, if_neg h1]
      constructor
      · simpa [List.length_cons] using (by omega : (takeMapLoop f rest (c - 1)).1.length + 1 ≤ c.toNat)
      · omega

lemma zip_eq_zip {α β : Type} :
    ∀ (a : List α) (b : List β), zip a b = List.zip a b := by
  intro a
  induction a with
  | nil => intro b; cases b <;> rfl
  | cons x xs ih =>
    intro b
    cases b with
    | nil => rfl
    | cons y ys => simp only [zip, ih, List.zip_cons_cons]

lemma foldE_first_nonnum (step : Int → JSVal → Except String Int) (msg : String)
    (hok : ∀ (acc : Int) (n : Int), ∃ a2, step acc (JSVal.num n) = .ok a2)
    (herr : ∀ (acc : Int) (v : JSVal), v.isNum = false → step acc v = .error msg) :
    ∀ (pre : List JSVal) (acc : Int) (x : JSVal) (post : List JSVal),
      (∀ y ∈ pre, y.isNum = true) → x.isNum = false →
      foldE step (pre ++ x :: post) acc = .error msg := by
  intro pre
  induction pre with
  | nil =>
    intro acc x post _ hx
    simp only [List.nil_append, foldE, herr acc x hx]
  | cons y pre' ih =>
    intro acc x post hpre hx
    have hy : y.isNum = true := hpre y (List.mem_cons_self y pre')
    obtain ⟨n, rfl⟩ : ∃ n, y = JSVal.num n := by
      cases y with
      | num n => exact ⟨n, rfl⟩
      | str s => simp [JSVal.isNum] at hy
    obtain ⟨a2, ha2⟩ := hok acc n
    simp only [List.cons_append, foldE, ha2]
    exact ih a2 x post (fun z hz => hpre z (List.mem_cons_of_mem _ hz)) hx

lemma hasProp_defineProp_self {α : Type} :
    ∀ (e : Entity α) (k : PKey) (b : Bool), hasProp (defineProp e k b) k = true := by
  intro e
  induction e with
  | base o => intro k b; simp [defineProp, hasProp]
  | proxy t ih => intro k b; simpa [defineProp, hasProp] using ih k b

lemma propEnumerable_defineProp_self {α : Type} :
    ∀ (e : Entity α) (k : PKey) (b : Bool), propEnumerable (defineProp e k b) k = some b := by
  intro e
  induction e with
  | base o => intro k b; simp [defineProp, propEnumerable, List.find?_cons]
  | proxy t ih => intro k b; simpa [defineProp, propEnumerable] using ih k b

lemma collectE_defineProp {α : Type} :
    ∀ (e : Entity α) (k : PKey) (b : Bool), collectE (defineProp e k b) = collectE e := by
  intro e
  induction e with
  | base o => intro k b; rfl
  | proxy t ih => intro k b; simpa [defineProp, collectE] using ih k b

lemma wrapDepth_defineProp {α : Type} :
    ∀ (e : Entity α) (k : PKey) (b : Bool), wrapDepth (defineProp e k b) = wrapDepth e := by
  intro e
  induction e with
  | base o => intro k b; rfl
  | proxy t ih => intro k b; simpa [defineProp, wrapDepth] using ih k b

lemma collectE_iterup {α : Type} (e : Entity α) : collectE (iterup e) = collectE e := by
  simp only [iterup, fromAsyncIterator, collectE]
  exact collectE_defineProp e _ _

lemma wrapDepth_iterup {α : Type} (e : Entity α) : wrapDepth (iterup e) = wrapDepth e + 1 := by
  simp only [iterup, fromAsyncIterator, wrapDepth]
  rw [wrapDepth_defineProp]

/-! ## Claims -/

/-- C1: the terminal `filter` is claimed to return the first element of the
sequence for which the possibly suspension-based predicate returns true, and
"no value" when the sequence is exhausted without a match.  The code tests
`f(value)` without awaiting it, so an async predicate returns a pending
promise, which is always truthy: on source `[1, 2, 3]` with an async
predicate that always resolves to `false`, the code returns element `1`
while the claim demands "no value". -/
theorem c1_filter_unawaited_predicate :
    filterJS (fun _ => JSBool.promise false) [1, 2, 3] = some 1
    ∧ filterSpec (fun _ => JSBool.promise false) [1, 2, 3] = none := by
  exact ⟨rfl, rfl⟩

/-- C2: `forEach` is claimed to await each possibly-suspending callback
before proceeding to the next element and to resolve only after every
callback has completed.  The fold wrapper in the code calls `f(value)` and
discards the returned promise, so with two elements where callback 0
suspends, the trace observed up to resolution is
`[start 0, start 1, fin 1]` — callback 1 starts before callback 0 completes
and the call resolves while callback 0 is still pending — where the claim
demands `[start 0, fin 0, start 1, fin 1]`. -/
theorem c2_forEach_unawaited_callback :
    forEachRun 2 (fun i => i == 0) = [Ev.start 0, Ev.start 1, Ev.fin 1]
    ∧ forEachSpec 2 (fun i => i == 0) = [Ev.start 0, Ev.fin 0, Ev.start 1, Ev.fin 1]
    ∧ forEachRun 2 (fun i => i == 0) ≠ forEachSpec 2 (fun i => i == 0) := by
  refine ⟨by decide, by decide, by decide⟩

/-- C3: for every finite sequence `s` and `k ≥ 1`, `cycle(s, k)` yields the
elements of `s` repeated `k` times in original order while pulling each
element from the original source exactly once (the pull counter equals the
source length, not `k` times it); for `k ≤ 0` it yields the empty sequence
without ever pulling from the source. -/
theorem c3_cycle_repeats_and_buffers {α : Type} (s : List α) (k : Int) :
    (1 ≤ k → cycleJS s k = ((List.replicate k.toNat s).flatten, s.length))
    ∧ (k ≤ 0 → cycleJS s k = ([], 0)) := by
  constructor
  · intro hk
    unfold cycleJS
    rw [if_neg (by omega : ¬ k ≤ 0)]
    obtain ⟨m, hm⟩ : ∃ m, k.toNat = m + 1 := ⟨k.toNat - 1, by omega⟩
    rw [hm]
    simp only [Nat.add_sub_cancel, List.replicate_succ, List.flatten_cons,
      cycleReps_eq_flatten_replicate]
  · intro hk
    unfold cycleJS
    rw [if_pos hk]

/-- Witness for C3 at `s = [1, 2, 3]`, `k = 3`. -/
theorem c3_cycle_repeats_and_buffers_w :
    cycleJS ([1, 2, 3] : List Nat) 3 = ((List.replicate (Int.toNat 3) [1, 2, 3]).flatten, 3) :=
  (c3_cycle_repeats_and_buffers [1, 2, 3] 3).1 (by decide)

/-- C4: driving `source -> map(f) -> take(n)` to completion invokes `f` at
most `n` times whenever `n ≤ length(source)`; `take` yields at most `n`
elements and pulls at most `n` elements from its upstream (the invocation
counter equals the number of elements pulled from `map`); `n ≤ 0` yields the
empty sequence with no pull at all. -/
theorem c4_take_laziness {α β : Type} (s : List α) (f : α → β) (n : Int) :
    (0 ≤ n → n ≤ (s.length : Int) → ((takeMapRun s f n).2 : Int) ≤ n)
    ∧ (takeMapRun s f n).1.length ≤ n.toNat
    ∧ (takeMapRun s f n).2 ≤ n.toNat
    ∧ (n ≤ 0 → takeMapRun s f n = ([], 0)) := by
  have hmain : (takeMapRun s f n).1.length ≤ n.toNat ∧ (takeMapRun s f n).2 ≤ n.toNat := by
    unfold takeMapRun
    by_cases hn : n ≤ 0
    · rw [if_pos hn]
      exact ⟨Nat.zero_le _, Nat.zero_le _⟩
    · rw [if_neg hn]
      exact takeMapLoop_bounds f s n (by omega)
  refine ⟨fun h0 _ => ?_, hmain.1, hmain.2, fun hn => ?_⟩
  · have h2 := hmain.2
    omega
  · unfold takeMapRun
    rw [if_pos hn]

/-- Witness for C4 at `s = [10, 20, 30, 40, 50]`, `f = (· * 2)`, `n = 2`. -/
theorem c4_take_laziness_w :
    ((takeMapRun [10, 20, 30, 40, 50] (fun x : Nat => x * 2) 2).2 : Int) ≤ 2 :=
  (c4_take_laziness [10, 20, 30, 40, 50] (fun x : Nat => x * 2) 2).1 (by decide) (by decide)

/-- C5: `zip` yields the pairs `(a_i, b_i)` in order and stops as soon as
either input is exhausted, so its length is the minimum of the two input
lengths (the element already drawn from the longer side in the final step is
discarded); in particular `zip [1,2,3] [1,2] = [(1,1),(2,2)]` and
`zip [1,2] [1,2,3] = [(1,1),(2,2)]`. -/
theorem c5_zip_stops_at_shorter {α β : Type} (a : List α) (b : List β) :
    zip a b = List.zip a b
    ∧ (zip a b).length = Nat.min a.length b.length
    ∧ zip [1, 2, 3] [1, 2] = [(1, 1), (2, 2)]
    ∧ zip [1, 2] [1, 2, 3] = [(1, 1), (2, 2)] := by
  refine ⟨zip_eq_zip a b, ?_, by decide, by decide⟩
  rw [zip_eq_zip a b]
  simp [List.length_zip]

/-- C6: `sum`, `min`, `max` fold with identities `0`,
`Number.MAX_SAFE_INTEGER`, `Number.MIN_SAFE_INTEGER` (returned unchanged on
an empty sequence); each fails with a TypeMismatch condition the moment the
first non-numeric element is encountered, whatever follows it, discarding
the partial accumulation; and on all-numeric input
`min [5,4,2,0,-10,890] = -10`, `max [5,4,2,0,-10,890] = 890`. -/
theorem c6_numeric_folds :
    (sum [] = .ok 0 ∧ min [] = .ok maxSafeInteger ∧ max [] = .ok minSafeInteger)
    ∧ (∀ (pre : List JSVal) (x : JSVal) (post : List JSVal),
        (∀ y ∈ pre, y.isNum = true) → x.isNum = false →
          sum (pre ++ x :: post) = .error "sum is not supported for non numeric iterators"
          ∧ min (pre ++ x :: post) = .error "min is not supported for non numeric iterators"
          ∧ max (pre ++ x :: post) = .error "max is not supported for non numeric iterators")
    ∧ (min ([5, 4, 2, 0, -10, 890].map JSVal.num) = .ok (-10)
       ∧ max ([5, 4, 2, 0, -10, 890].map JSVal.num) = .ok 890) := by
  refine ⟨⟨rfl, rfl, rfl⟩, ?_, rfl, rfl⟩
  intro pre x post hpre hx
  refine ⟨?_, ?_, ?_⟩
  · exact foldE_first_nonnum sumStep _ (fun acc n => ⟨acc + n, rfl⟩)
      (fun acc v hv => by cases v with
        | num n => simp [JSVal.isNum] at hv
        | str t => rfl) pre 0 x post hpre hx
  · exact foldE_first_nonnum minStep _ (fun acc n => ⟨if n < acc then n else acc, rfl⟩)
      (fun acc v hv => by cases v with
        | num n => simp [JSVal.isNum] at hv
        | str t => rfl) pre maxSafeInteger x post hpre hx
  · exact foldE_first_nonnum maxStep _ (fun acc n => ⟨if acc < n then n else acc, rfl⟩)
      (fun acc v hv => by cases v with
        | num n => simp [JSVal.isNum] at hv
        | str t => rfl) pre minSafeInteger x post hpre hx

/-- Witness for C6: a non-numeric element after two numeric ones fails the
whole `sum` call. -/
theorem c6_numeric_folds_w :
    sum [JSVal.num 1, JSVal.num 2, JSVal.str "x"] =
      .error "sum is not supported for non numeric iterators" :=
  (c6_numeric_folds.2.1 [JSVal.num 1, JSVal.num 2] (JSVal.str "x") [] (by decide) (by decide)).1

/-- C7: for every finite sequence `s` and every `n ≥ 0`,
`collect(take(s, n)) ++ collect(drop(s, n))` equals `collect(s)`. -/
theorem c7_take_drop_complementarity {α : Type} (s : List α) (n : Int) (_hn : 0 ≤ n) :
    take s n ++ drop s n = s := by
  by_cases h0 : n ≤ 0
  · unfold take drop
    rw [if_pos h0, if_pos h0]
    simp [dropLoop]
  · unfold take drop
    rw [if_neg h0, if_neg h0]
    exact takeLoop_append_dropLoop s n (by omega)

/-- Witness for C7 at `s = [1, 2, 3, 4, 5]`, `n = 2`. -/
theorem c7_take_drop_complementarity_w :
    take ([1, 2, 3, 4, 5] : List Nat) 2 ++ drop [1, 2, 3, 4, 5] 2 = [1, 2, 3, 4, 5] :=
  c7_take_drop_complementarity [1, 2, 3, 4, 5] 2 (by decide)

/-- C8: `drop(s, count)` skips exactly the first `count` elements (zero
indexed) and yields the remainder unchanged — i.e. it computes
`List.drop count.toNat s` on the canonical one-shot sequence; for
`count ≤ 0` it yields exactly the elements of `s`, once each and unchanged;
and when `s` has fewer than `count` elements the result is empty. -/
theorem c8_drop_semantics {α : Type} (s : List α) (count : Int) :
    drop s count = List.drop count.toNat s
    ∧ (count ≤ 0 → drop s count = s)
    ∧ ((s.length : Int) < count → drop s count = []) := by
  refine ⟨drop_eq_drop_toNat s count, fun hc => ?_, fun hlen => ?_⟩
  · rw [drop_eq_drop_toNat]
    have h0 : count.toNat = 0 := by omega
    simp [h0]
  · rw [drop_eq_drop_toNat]
    exact List.drop_eq_nil_of_le (by omega)

/-- Witness for C8 at `s = [1, 2, 3]`, `count = -1`. -/
theorem c8_drop_semantics_w :
    drop ([1, 2, 3] : List Nat) (-1) = [1, 2, 3] :=
  (c8_drop_semantics [1, 2, 3] (-1)).2.1 (by decide)

/-- C9 counterexample: the claim asserts the identity tag is never defined
as a property on the underlying wrapped sequence.  But the `Proxy` handler
in `fromAsyncIterator` has only a `get` trap, so
`Object.defineProperty(proxy, IterupID, {})` forwards to the target: after
wrapping the concrete bare generator for `[1, 2, 3]`, the underlying
sequence object itself carries the tag as an own property. -/
theorem c9_tag_on_underlying_counterexample :
    hasProp (underlyingOf (Entity.base ⟨([1, 2, 3] : List Nat), []⟩)) PKey.iterupID = true := by
  decide

/-- C9 amended: every Enhanced Handle carries the hidden identity tag
(`isIterup` answers true on it); the tag is attached exactly once at wrap
time as a non-enumerable marker — but the trap-less `defineProperty`
forwards through the proxy, so the tag is in fact defined as a
(non-enumerable) own property on the underlying wrapped sequence, which the
handle then reflects. -/
theorem c9_identity_tag_amended {α : Type} (it : Entity α) :
    isIterup (fromAsyncIterator it) = true
    ∧ fromAsyncIterator it = Entity.proxy (underlyingOf it)
    ∧ hasProp (underlyingOf it) PKey.iterupID = true
    ∧ propEnumerable (underlyingOf it) PKey.iterupID = some false := by
  refine ⟨?_, rfl, ?_, ?_⟩
  · simp only [isIterup, fromAsyncIterator, hasProp]
    exact hasProp_defineProp_self it _ _
  · exact hasProp_defineProp_self it _ _
  · exact propEnumerable_defineProp_self it _ _

/-- C10: re-wrapping is semantics-preserving.  The entry point wraps an
already-Enhanced Handle in a second interception layer (one more proxy,
never returning the input unchanged), yet collecting the doubly-wrapped
handle yields exactly the same elements in the same order as the
singly-wrapped one, since iteration forwards through every layer. -/
theorem c10_rewrap_preserves_collect {α : Type} (e : Entity α) :
    collectE (iterup (iterup e)) = collectE (iterup e)
    ∧ wrapDepth (iterup (iterup e)) = wrapDepth (iterup e) + 1
    ∧ iterup (iterup e) = Entity.proxy (underlyingOf (iterup e)) := by
  refine ⟨?_, ?_, rfl⟩
  · rw [collectE_iterup (iterup e)]
  · rw [wrapDepth_iterup (iterup e)]

end Iterup


